import Mathlib

/-!
# Verification of the moleculer-database service methods (`src/methods.js`)

A shallow embedding of the mixin's methods: the field-name translator,
the scope resolver, the entity operation pipeline (resolve / update /
replace / remove / clear), the change-notification fan-out, and the
multi-tenant adapter pool (maintenance, connect-with-retry, and an
interleaving model of concurrent `getAdapter` calls).

JavaScript objects are modelled as insertion-ordered association lists of
string keys; `undefined`/`null` are modelled by `Option` or the `nul`
value where the distinction matters.
-/

namespace MoleculerDb

/-- A JavaScript value, as far as the methods under study inspect one. -/
inductive JsVal where
  | nul
  | bool (b : Bool)
  | num (n : Int)
  | str (s : String)
  | arr (xs : List JsVal)
  | obj (fs : List (String × JsVal))
deriving Repr, BEq

/-- JS objects are insertion-ordered maps with string keys. -/
abbrev Assoc := List (String × JsVal)

/-- Property read `o[k]`: `none` models `undefined`. -/
def assocGet (o : Assoc) (k : String) : Option JsVal :=
  match o.find? (fun p => p.1 == k) with
  | some p => some p.2
  | none => none

/-- Property write `o[k] = v`: replaces in place if the key exists
(JS keeps the original insertion position), otherwise appends. -/
def assocSet (o : Assoc) (k : String) (v : JsVal) : Assoc :=
  match o with
  | [] => [(k, v)]
  | (k', v') :: rest =>
      if k' = k then (k', v) :: rest else (k', v') :: assocSet rest k v

/-- `delete o[k]`: removes the binding for `k` when present. -/
def assocErase (o : Assoc) (k : String) : Assoc :=
  match o with
  | [] => []
  | (k', v') :: rest =>
      if k' = k then rest else (k', v') :: assocErase rest k

/-- JS truthiness of the values we model (`undefined` is handled by
`Option` at the call sites). -/
def jsTruthy : JsVal → Bool
  | .nul => false
  | .bool b => b
  | .num n => n ≠ 0
  | .str s => s ≠ ""
  | .arr _ => true
  | .obj _ => true

/-- `_.isPlainObject`: true exactly for object literals. -/
def isPlainObject : JsVal → Bool
  | .obj _ => true
  | _ => false

/-! ## Field Name Translator (`_getColumnNameFromFieldName`,
`_sortFieldNameConversion`, `_queryFieldNameConversion`) -/

/-- A field descriptor: `{ name, columnName, secure }` (`src/methods.js`
uses `this.$fields` and the distinguished `this.$primaryField`). -/
structure FieldDesc where
  name : String
  columnName : String
  secure : Bool := false
deriving Repr, DecidableEq

/-- `_getColumnNameFromFieldName`: find the descriptor whose `name`
matches and return its `columnName`; unknown names pass through.  The
process-lifetime memo cache is semantically transparent and not
modelled. -/
def getColumnNameFromFieldName (fields : List FieldDesc) (fieldName : String) : String :=
  match fields.find? (fun f => f.name == fieldName) with
  | some f => f.columnName
  | none => fieldName

/-- `fieldName.startsWith("-")`, decided on the character list. -/
def startsWithDash (s : String) : Bool :=
  match s.data with
  | [] => false
  | c :: _ => c = '-'

/-- `fieldName.slice(1)`, on the character list. -/
def dropFirstChar (s : String) : String :=
  String.mk (s.data.drop 1)

/-- `_sortFieldNameConversion`: translate each element, preserving a
leading "-" descending marker. -/
def sortFieldNameConversion (fields : List FieldDesc) (sort : List String) : List String :=
  sort.map (fun fieldName =>
    if startsWithDash fieldName then
      "-" ++ getColumnNameFromFieldName fields (dropFirstChar fieldName)
    else
      getColumnNameFromFieldName fields fieldName)

/-- `Object.keys(v)` / `v[k]` enumeration used when
`_queryFieldNameConversion` recurses into a value: for a plain object it
is the object's own entries; the methods only ever recurse into plain
objects in practice (primitives have no enumerable own properties;
array/string index properties are not needed for any claim below). -/
def jsEntries : JsVal → Assoc
  | .obj fs => fs
  | _ => []

/-- `_queryFieldNameConversion(query, recursive)`, translated line by
line from `src/methods.js` (lines 880-890): a `reduce` over the keys of
`query` into a fresh object `res`.  NOTE the source tests
`_.isPlainObject(res[columnName])` — the accumulator being built, not
`query[fieldName]` — before recursing, and this embedding reproduces
that faithfully. -/
def queryFieldNameConversion (fields : List FieldDesc) (recursive : Bool) :
    Assoc → Assoc → Assoc
  | res, [] => res
  | res, (fieldName, v) :: rest =>
      let columnName := getColumnNameFromFieldName fields fieldName
      let res' :=
        match assocGet res columnName with
        | some w =>
            if isPlainObject w ∧ recursive then
              assocSet res columnName
                (.obj (queryFieldNameConversion fields recursive [] (jsEntries v)))
            else
              assocSet res columnName v
        | none => assocSet res columnName v
      queryFieldNameConversion fields recursive res' rest
termination_by _ q => sizeOf q
decreasing_by
  all_goals simp_wf
  all_goals cases v <;> simp [jsEntries] <;> omega

/-- Entry point as called from `paramsFieldNameConversion`
(`this._queryFieldNameConversion(p.query, true)` starts the reduce with
an empty accumulator). -/
def queryFieldNameConversionTop (fields : List FieldDesc) (query : Assoc)
    (recursive : Bool) : Assoc :=
  queryFieldNameConversion fields recursive [] query

/-! ## Scope Resolver (`_applyScopes`, `_filterScopeNamesByPermission`) -/

/-- A scope definition from `settings.scopes`: a static partial query
filter, or a function `(query, ctx) => query` (the context argument is
not inspected by the methods under study and is dropped). -/
inductive ScopeDef where
  | staticQ (q : Assoc)
  | fn (f : Assoc → Assoc)

/-- `_.defaultsDeep(dst, src)`: assigns each `src` key missing from
`dst`; when both sides hold plain objects the merge recurses.  (Lodash
also merges array elements index-wise; no scope in this development
nests arrays, so that case is not exercised.) -/
def defaultsDeep : Assoc → Assoc → Assoc
  | dst, [] => dst
  | dst, (k, v) :: rest =>
      let dst' :=
        match assocGet dst k with
        | none => assocSet dst k v
        | some w =>
            if isPlainObject w ∧ isPlainObject v then
              assocSet dst k (.obj (defaultsDeep (jsEntries w) (jsEntries v)))
            else dst
      defaultsDeep dst' rest
termination_by _ src => sizeOf src
decreasing_by
  all_goals simp_wf
  all_goals cases v <;> simp [jsEntries] <;> omega

/-- Relevant service settings (`this.settings` and schema-derived state
`this.$fields`, `this.$primaryField`, `this.$softDelete`). -/
structure Settings where
  fields : List FieldDesc
  primaryField : FieldDesc
  defaultScopes : List String := []
  scopes : List (String × ScopeDef) := []
  softDelete : Bool := false

/-- `this.settings.scopes[name]` (string-keyed property access). -/
def Settings.scopeOf (st : Settings) (n : String) : Option ScopeDef :=
  match st.scopes.find? (fun p => p.1 == n) with
  | some p => some p.2
  | none => none

/-- The external `checkScopeAuthority(ctx, scopeName, scope)` check:
`none` models the `(ctx, null, null)` scope-bypass permission call. -/
abbrev AuthCheck := Option (String × ScopeDef) → Bool

/-- `_filterScopeNamesByPermission`: drop names with no definition and
names the authority check denies, keeping order. -/
def filterScopeNamesByPermission (st : Settings) (auth : AuthCheck)
    (names : List String) : List String :=
  names.filter (fun n =>
    match st.scopeOf n with
    | none => false
    | some sc => auth (some (n, sc)))

/-- The `params.scope` argument as `_applyScopes` discriminates it:
truthy value (names), the literal `false`, or absent/falsy (`unset`). -/
inductive ScopeArg where
  | unset
  | disabled
  | names (l : List String)
deriving Repr, DecidableEq

/-- `_applyScopes(params, ctx)` (`src/methods.js` lines 151-177),
acting on `params.query` (`none` models an absent query).  Note the
source checks `scopes.length > 0` on the pre-filter name list, so a
nonempty but entirely-unauthorized request still materializes
`params.query = cloneDeep(params.query || empty)`. -/
def applyScopes (st : Settings) (auth : AuthCheck) (arg : ScopeArg)
    (query : Option Assoc) : Option Assoc :=
  let scopes : Option (List String) :=
    match arg with
    | .names l => some l
    | .disabled => if auth none then none else some st.defaultScopes
    | .unset => some st.defaultScopes
  match scopes with
  | none => query
  | some l =>
      if l.length > 0 then
        let l' := filterScopeNamesByPermission st auth l
        some (l'.foldl (fun q n =>
          match st.scopeOf n with
          | none => q
          | some (.staticQ s) => defaultsDeep q s
          | some (.fn f) => f q) (query.getD []))
      else query

/-! ## Change notification (`_entityChanged`, `entityChanged`) -/

/-- The `mixinOpts.cache` block.  The module prologue computes
`cacheOpts = mixinOpts.cache && mixinOpts.cache.enabled ?
mixinOpts.cache : null` (`src/methods.js` line 17). -/
structure CacheSettings where
  enabled : Bool := false
  eventType : Option String := none
  eventName : Option String := none
deriving Repr, DecidableEq

/-- The derived module-level `cacheOpts` constant: `none` models the
JS `null`. -/
def cacheOptsOf (cache : Option CacheSettings) : Option CacheSettings :=
  match cache with
  | some c => if c.enabled then some c else none
  | none => none

/-- JS truthiness of an optional string option. -/
def strTruthy : Option String → Bool
  | some s => s ≠ ""
  | none => false

/-- Errors the embedded pipeline can surface. -/
inductive DbError where
  /-- `MoleculerClientError("Missing id field.", 400, "MISSING_ID")`. -/
  | missingId
  /-- `EntityNotFoundError(origID)`. -/
  | entityNotFound
  /-- The `TypeError` thrown by reading `cacheOpts.eventType` when the
  module-level `cacheOpts` is `null` (cache disabled). -/
  | nullCacheOpts
deriving Repr, DecidableEq

/-- An event sent through `ctx.emit` / `ctx.broadcast`. -/
structure EmittedEvent where
  eventName : String
  eventType : String
  changeType : String
deriving Repr, DecidableEq

/-- `entityChanged(type, data, ctx, opts)` (lines 791-802): the
entity-lifecycle notification channel, gated on
`mixinOpts.entityChangedEventType`. -/
def entityChangedLifecycle (entityChangedEventType : Option String)
    (svcName ty : String) : List EmittedEvent :=
  if strTruthy entityChangedEventType then
    let op := ty ++ (if ty = "clear" then "ed" else "d")
    [⟨svcName ++ "." ++ op, entityChangedEventType.getD "", ty⟩]
  else []

/-- `_entityChanged(type, data, ctx, opts)` (lines 768-782).  The very
first statement reads `cacheOpts.eventType`; when the cache is disabled
`cacheOpts` is `null` and the read throws, so the whole call rejects
before the lifecycle channel runs.  (The inner `if (cacheOpts &&
eventName)` guard on line 771 is evaluated only after that read.) -/
def entityChangedM (cacheOpts : Option CacheSettings)
    (entityChangedEventType : Option String) (svcName ty : String) :
    Except DbError (List EmittedEvent) :=
  match cacheOpts with
  | none => .error .nullCacheOpts
  | some co =>
      let cacheEvents :=
        if strTruthy co.eventType then
          let eventName :=
            match co.eventName with
            | some n => if n ≠ "" then n else "cache.clean." ++ svcName
            | none => "cache.clean." ++ svcName
          [⟨eventName, co.eventType.getD "", ty⟩]
        else []
      .ok (cacheEvents ++ entityChangedLifecycle entityChangedEventType svcName ty)

/-- `clearEntities(ctx, params)` (lines 721-729): `adapter.clear` (the
abstract adapter's clear is assumed to succeed, returning `cleared`),
then `_entityChanged("clear", null, ctx)`. -/
def clearEntities (cacheOpts : Option CacheSettings)
    (entityChangedEventType : Option String) (svcName : String) :
    Except DbError (List EmittedEvent) :=
  entityChangedM cacheOpts entityChangedEventType svcName "clear"

/-! ## Entity operation pipeline (`resolveEntities`, `updateEntity`,
`replaceEntity`, `removeEntity`) -/

/-- The service instance together with its external collaborators: the
pooled adapter's capabilities (`find`, `updateById`, `replaceById`;
`removeById` returns nothing and is tracked only in the write log), the
transformer, the authority check, and the ID codec (`encodeID` /
`decodeID`, identity by default but overridable). -/
structure SvcCtx where
  settings : Settings
  svcName : String := "svc"
  cacheOpts : Option CacheSettings := some { enabled := true }
  entityChangedEventType : Option String := none
  encodeID : JsVal → JsVal := id
  decodeID : JsVal → JsVal := id
  auth : AuthCheck := fun _ => true
  find : Assoc → List Assoc := fun _ => []
  updateById : JsVal → Assoc → Bool → JsVal := fun _ p _ => .obj p
  replaceById : JsVal → Assoc → JsVal := fun _ p => .obj p
  tf : JsVal → JsVal := id

/-- A mutating adapter call, recorded in order. -/
inductive WriteOp where
  | updateById (id : JsVal) (changes : Assoc) (raw : Bool)
  | replaceById (id : JsVal) (params : Assoc)
  | removeById (id : JsVal)
deriving Repr, BEq

/-- `_getIDFromParams`: `params[this.$primaryField.name]`, with the
`id == null` check catching both `null` and `undefined`. -/
def getIDFromParams (S : SvcCtx) (params : Assoc) : Option JsVal :=
  match assocGet params S.settings.primaryField.name with
  | some .nul => none
  | some v => some v
  | none => none

/-- `_sanitizeID(id, opts)` (lines 832-839): decode when the caller
forces it via `opts.secureID`, or when the primary field is secure. -/
def sanitizeID (S : SvcCtx) (secureID : Option Bool) (id : JsVal) : JsVal :=
  match secureID with
  | some b => if b then S.decodeID id else id
  | none => if S.settings.primaryField.secure then S.decodeID id else id

/-- `Array.isArray(id)` in `resolveEntities`. -/
def isMulti : JsVal → Bool
  | .arr _ => true
  | _ => false

/-- `if (!multi) id = [id]`. -/
def idList : JsVal → List JsVal
  | .arr xs => xs
  | v => [v]

/-- `params.mapping === true`. -/
def mappingFlag (params : Assoc) : Bool :=
  match assocGet params "mapping" with
  | some (.bool true) => true
  | _ => false

/-- JS string coercion of a value used as an object property key
(scope names being looked up, and mapping keys in `map[id] = doc`).
Array coercion joins elements with commas as `Array.prototype.toString`
does; the claims below only exercise string and number keys. -/
def jsToPropKey : JsVal → String
  | .str s => s
  | .num n => toString n
  | .bool b => if b then "true" else "false"
  | .nul => "null"
  | .arr xs => String.intercalate "," (xs.map fun v =>
      match v with
      | .str s => s
      | .num n => toString n
      | .bool b => if b then "true" else "false"
      | _ => "")
  | .obj _ => "[object Object]"

/-- How `_applyScopes` sees `params.scope`: absent or falsy-non-false
values take the default-scope branch, the literal `false` takes the
bypass branch, and truthy values become a name list (property lookup
coerces non-string elements to strings). -/
def scopeArgOfParams (params : Assoc) : ScopeArg :=
  match assocGet params "scope" with
  | none => .unset
  | some (.bool false) => .disabled
  | some (.arr xs) => .names (xs.map jsToPropKey)
  | some v => if jsTruthy v then .names [jsToPropKey v] else .unset

/-- The query `resolveEntities` hands to `adapter.find`: start from
`params.query` (materialized to an empty object when absent), apply
scopes, translate field names recursively, then add the primary-key
filter (`{$in: ids}` for a list, the single id otherwise) under the
*column* name, after translation. -/
def resolveQuery (S : SvcCtx) (params : Assoc) (ids : List JsVal)
    (multi : Bool) : Assoc :=
  let q0 : Assoc :=
    match assocGet params "query" with
    | some (.obj fs) => fs
    | _ => []
  let q1 := (applyScopes S.settings S.auth (scopeArgOfParams params) (some q0)).getD []
  let q2 := queryFieldNameConversionTop S.settings.fields q1 true
  let idField := S.settings.primaryField.columnName
  if multi then assocSet q2 idField (.obj [("$in", .arr ids)])
  else assocSet q2 idField (ids.headD .nul)

/-- What `resolveEntities` returns: a single (possibly absent) entity,
a list, or an identifier→entity mapping keyed by coerced property
keys. -/
inductive ResolveResult where
  | single (e : Option JsVal)
  | list (l : List JsVal)
  | mapping (m : Assoc)
deriving Repr, BEq

/-- The JS value a `ResolveResult` stands for when the caller uses it
as a plain value (`oldEntity` in update/replace/remove). -/
def ResolveResult.toJs : ResolveResult → JsVal
  | .single (some e) => e
  | .single none => .nul
  | .list l => .arr l
  | .mapping m => .obj m

/-- `resolveEntities` options (`opts.transform !== false` defaults the
transform on; `opts.secureID` is not forwarded by the update /replace/
remove flows so the default security logic applies there). -/
structure ResolveOpts where
  transform : Bool := true
  throwIfNotExist : Bool := false
  secureID : Option Bool := none

/-- The mapping `reduce` (lines 427-433): keys come from the
*untransformed* entity's id column, re-encoded when the primary field
is secure; an entity without the id column coerces `undefined`. -/
def mapKey (S : SvcCtx) (e : Assoc) : String :=
  match assocGet e S.settings.primaryField.columnName with
  | some v =>
      jsToPropKey (if S.settings.primaryField.secure then S.encodeID v else v)
  | none => "undefined"

/-- `result.reduce((map, doc, i) => ..., {})` over the transformed
results paired with their untransformed entities. -/
def buildMapping (S : SvcCtx) (unT : List Assoc) (t : List JsVal) : Assoc :=
  (List.zip unT t).foldl (fun m p => assocSet m (mapKey S p.1) p.2) []

/-- `resolveEntities(ctx, params, opts)` (`src/methods.js` lines
372-439).  The adapter contributes only its read capability here; the
optional `afterResolveEntities` hook is observation-only and omitted.
Transformation is modelled per element (spec §6 Transformer). -/
def resolveEntities (S : SvcCtx) (params : Assoc) (opts : ResolveOpts) :
    Except DbError ResolveResult :=
  match getIDFromParams S params with
  | none => .error .missingId
  | some id0 =>
      let multi := isMulti id0
      let ids := (idList id0).map (sanitizeID S opts.secureID)
      let q := resolveQuery S params ids multi
      let result := S.find q
      if result.length = 0 then
        if opts.throwIfNotExist then .error .entityNotFound
        else
          .ok (if mappingFlag params then .mapping []
               else if multi then .list [] else .single none)
      else
        let tresult : List JsVal :=
          if opts.transform then result.map (fun e => S.tf (.obj e))
          else result.map .obj
        if mappingFlag params then
          .ok (.mapping (buildMapping S result tresult))
        else if multi then .ok (.list tresult)
        else .ok (.single tresult.head?)

/-- Options shared by the single-entity write flows. -/
structure OpOpts where
  transform : Bool := true
  raw : Bool := false
  secureID : Option Bool := none

/-- Result of a write flow: the returned value (or error), the adapter
mutations performed, and the change events emitted — in order. -/
structure OpOutcome where
  result : Except DbError JsVal
  writes : List WriteOp
  events : List EmittedEvent
deriving Repr

/-- `updateEntity(ctx, params, opts)` (lines 507-553): resolve the old
entity strictly, validate unless raw, strip both identifier keys, and
only when keys remain call `adapter.updateById` and emit the update
notification; otherwise hand back the already-resolved old entity.
`validate` stands for the external `validateParams` collaborator. -/
def updateEntity (S : SvcCtx) (validate : Assoc → Assoc) (params : Assoc)
    (opts : OpOpts) : OpOutcome :=
  match getIDFromParams S params with
  | none => ⟨.error .missingId, [], []⟩
  | some id0 =>
      match resolveEntities S params { transform := false, throwIfNotExist := true } with
      | .error e => ⟨.error e, [], []⟩
      | .ok oldRes =>
          let oldEntity := oldRes.toJs
          let params1 := if opts.raw then params else validate params
          let id := sanitizeID S opts.secureID id0
          let params2 :=
            assocErase (assocErase params1 S.settings.primaryField.columnName)
              S.settings.primaryField.name
          let hasChanges := params2.length > 0
          let result0 :=
            if hasChanges then S.updateById id params2 opts.raw else oldEntity
          let writes : List WriteOp :=
            if hasChanges then [.updateById id params2 opts.raw] else []
          let result := if opts.transform then S.tf result0 else result0
          if hasChanges then
            match entityChangedM S.cacheOpts S.entityChangedEventType S.svcName "update" with
            | .ok evs => ⟨.ok result, writes, evs⟩
            | .error e => ⟨.error e, writes, []⟩
          else ⟨.ok result, writes, []⟩

/-- `replaceEntity(ctx, params, opts)` (lines 598-631): strict resolve,
validate, strip the column key (and the name key when it differs),
always `adapter.replaceById`, then the replace notification. -/
def replaceEntity (S : SvcCtx) (validate : Assoc → Assoc) (params : Assoc)
    (opts : OpOpts) : OpOutcome :=
  match getIDFromParams S params with
  | none => ⟨.error .missingId, [], []⟩
  | some id0 =>
      match resolveEntities S params { transform := false, throwIfNotExist := true } with
      | .error e => ⟨.error e, [], []⟩
      | .ok _oldRes =>
          let params1 := validate params
          let id := sanitizeID S opts.secureID id0
          let col := S.settings.primaryField.columnName
          let nm := S.settings.primaryField.name
          let params2 :=
            let p := assocErase params1 col
            if col ≠ nm then assocErase p nm else p
          let result0 := S.replaceById id params2
          let result := if opts.transform then S.tf result0 else result0
          match entityChangedM S.cacheOpts S.entityChangedEventType S.svcName "replace" with
          | .ok evs => ⟨.ok result, [.replaceById id params2], evs⟩
          | .error e => ⟨.error e, [.replaceById id params2], []⟩

/-- `removeEntity(ctx, params, opts)` (lines 640-679): strict resolve,
validate, then either a soft-delete `updateById` or a physical
`removeById`; the remove notification fires and the *original* (still
encoded) identifier is returned, not the entity. -/
def removeEntity (S : SvcCtx) (validate : Assoc → Assoc) (params : Assoc)
    (opts : OpOpts) : OpOutcome :=
  match getIDFromParams S params with
  | none => ⟨.error .missingId, [], []⟩
  | some id0 =>
      match resolveEntities S params { transform := false, throwIfNotExist := true } with
      | .error e => ⟨.error e, [], []⟩
      | .ok _entRes =>
          let params1 := validate params
          let id := sanitizeID S opts.secureID id0
          let writes : List WriteOp :=
            if S.settings.softDelete then [.updateById id params1 false]
            else [.removeById id]
          match entityChangedM S.cacheOpts S.entityChangedEventType S.svcName "remove" with
          | .ok evs => ⟨.ok id0, writes, evs⟩
          | .error e => ⟨.error e, writes, []⟩

/-! ## Adapter pool: maintenance (`maintenanceAdapters`) -/

/-- A pool entry `{ hash, adapter, touched }` (`this.adapters` maps the
tenant hash to this record; `adapter` is abstracted to a number). -/
structure PoolEntry where
  hash : String
  adapterId : Nat
  touched : Int
deriving Repr, DecidableEq

/-- The ascending `(a, b) => a.touched - b.touched` comparator. -/
def touchedLE (a b : PoolEntry) : Prop := a.touched ≤ b.touched

instance : DecidableRel touchedLE := fun a b => Int.decLe a.touched b.touched
instance : IsTotal PoolEntry touchedLE := ⟨fun a b => Int.le_total a.touched b.touched⟩
instance : IsTrans PoolEntry touchedLE := ⟨fun _ _ _ h₁ h₂ => le_trans h₁ h₂⟩

/-- `maintenanceAdapters()` (`src/methods.js` lines 60-75): when a
maximum is configured (non-null and ≥ 1) and the pool exceeds it, sort
the entries by `touched` ascending and disconnect the first
`size - max`; `_disconnect` removes each closed entry from the map by
its hash.  Returns `(retained, evicted)`. -/
def maintenanceAdapters (maximumAdapters : Option Int)
    (entries : List PoolEntry) : List PoolEntry × List PoolEntry :=
  match maximumAdapters with
  | none => (entries, [])
  | some m =>
      if m < 1 then (entries, [])
      else
        let surplus : Int := (entries.length : Int) - m
        if 0 < surplus then
          let closeable := (List.insertionSort touchedLE entries).take surplus.toNat
          (entries.filter (fun e => ! closeable.any (fun c => c.hash == e.hash)),
           closeable)
        else (entries, [])

/-! ## Adapter pool: connect with retry (`_connect`) -/

/-- What the promise returned by `_connect` has done after a prefix of
connect-attempt outcomes (`true` = `adapter.connect()` succeeded). -/
inductive ConnectResult where
  /-- `resolve()` ran after `waits` backoff sleeps. -/
  | resolvedAfter (waits : Nat)
  /-- `reject(err)` ran: the `acquire` caller sees the connect error. -/
  | rejected
  /-- the retry loop is still going; the caller stays suspended. -/
  | pending
deriving Repr, DecidableEq

/-- The `connecting()` loop of `_connect` (lines 84-106): try the next
attempt; on success resolve; on failure either schedule `connecting`
again after a `setTimeout(..., 1000)` (auto-reconnect) or reject.
Returns the list of backoff delays slept (each the fixed 1000 ms) and
the promise's state once the given attempts are exhausted. -/
def connectDelays (autoReconnect : Bool) : List Bool → List Nat × ConnectResult
  | [] => ([], .pending)
  | ok :: rest =>
      if ok then ([], .resolvedAfter 0)
      else if autoReconnect then
        let (ds, r) := connectDelays autoReconnect rest
        (1000 :: ds,
         match r with
         | .resolvedAfter n => .resolvedAfter (n + 1)
         | x => x)
      else ([], .rejected)

/-! ## Adapter pool: concurrent `getAdapter` (interleaving model)

`getAdapter` (lines 26-46) runs on the JS event loop: code between two
`await` points executes atomically.  The lookup (line 28) and, on a
miss, the adapter construction and `this.adapters.set` (lines 35-37)
form one such synchronous block; the connect (inside `_connect`,
awaited on line 39) happens in a later block.  Each concurrent caller
is a task that advances through these atomic segments in any
interleaving.  No `maximumAdapters` is configured, so the maintenance
pass between registration and connect is a no-op. -/

/-- One `getAdapter` caller: about to do the lookup (`start`), past the
map registration and awaiting maintenance/connect (`connecting`), or
returned with its handle (`finished`). -/
inductive AcqTask where
  | start (k : String)
  | connecting (k : String) (a : Nat)
  | finished (k : String) (a : Nat)
deriving Repr, DecidableEq

/-- `this.adapters.get(hash)` on the shared pool map. -/
def plookup (pool : List (String × Nat)) (k : String) : Option Nat :=
  match pool.find? (fun p => p.1 == k) with
  | some p => some p.2
  | none => none

/-- The shared state plus every caller's position: the pool map, a
fresh-adapter counter (`Adapters.resolve` yields a new instance), the
log of `adapter.connect()` sequences started, and the task list. -/
structure PoolCfg where
  pool : List (String × Nat)
  nextId : Nat
  connects : List String
  tasks : List AcqTask
deriving Repr, DecidableEq

/-- One atomic segment of one caller: a hit returns the pooled handle;
a miss constructs a fresh adapter and registers it in the same
synchronous block; a registered creator later runs its connect
sequence and returns its handle. -/
inductive AcqStep : PoolCfg → PoolCfg → Prop where
  | hit (c : PoolCfg) (pre post : List AcqTask) (k : String) (a : Nat)
      (htasks : c.tasks = pre ++ .start k :: post)
      (hpool : plookup c.pool k = some a) :
      AcqStep c { c with tasks := pre ++ .finished k a :: post }
  | miss (c : PoolCfg) (pre post : List AcqTask) (k : String)
      (htasks : c.tasks = pre ++ .start k :: post)
      (hpool : plookup c.pool k = none) :
      AcqStep c { pool := (k, c.nextId) :: c.pool, nextId := c.nextId + 1,
                  connects := c.connects,
                  tasks := pre ++ .connecting k c.nextId :: post }
  | connect (c : PoolCfg) (pre post : List AcqTask) (k : String) (a : Nat)
      (htasks : c.tasks = pre ++ .connecting k a :: post) :
      AcqStep c { c with connects := k :: c.connects,
                         tasks := pre ++ .finished k a :: post }

/-- Reflexive-transitive closure of `AcqStep`. -/
inductive AcqReach : PoolCfg → PoolCfg → Prop where
  | refl (c : PoolCfg) : AcqReach c c
  | tail (c₁ c₂ c₃ : PoolCfg) : AcqReach c₁ c₂ → AcqStep c₂ c₃ → AcqReach c₁ c₃

/-- An empty pool with one fresh `getAdapter` caller per listed key. -/
def initCfg (ks : List String) : PoolCfg :=
  ⟨[], 0, [], ks.map .start⟩

/-- Number of creator tasks for key `k` still awaiting their connect. -/
def connectingCount (c : PoolCfg) (k : String) : Nat :=
  c.tasks.countP (fun t =>
    match t with
    | .connecting k' _ => k' == k
    | _ => false)

/-- The pool invariant tying the map, the connect log, and the task
phases together. -/
def PoolInv (c : PoolCfg) : Prop :=
  (∀ k a, (AcqTask.connecting k a ∈ c.tasks ∨ AcqTask.finished k a ∈ c.tasks) →
    plookup c.pool k = some a) ∧
  (∀ k, plookup c.pool k = none →
    c.connects.count k = 0 ∧
    ∀ a, AcqTask.connecting k a ∉ c.tasks ∧ AcqTask.finished k a ∉ c.tasks) ∧
  (∀ k, connectingCount c k + c.connects.count k ≤ 1)

/-- The key a caller is acquiring for. -/
def AcqTask.key : AcqTask → String
  | .start k => k
  | .connecting k _ => k
  | .finished k _ => k

/-! ## Claim theorems -/

/-- C6: `_connect` retry behaviour — with auto-reconnect disabled the
first failed attempt rejects the `acquire` caller with the connect
error after zero backoff waits; with it enabled, `n` failures followed
by a success resolve after exactly `n` fixed 1000 ms backoff waits,
for every `n` (no attempt cap, no exponential growth), and while no
attempt has succeeded the promise stays pending, so the caller remains
suspended. -/
theorem c6_connect_retry_backoff :
    (∀ rest, connectDelays false (false :: rest) = ([], .rejected)) ∧
    (∀ n rest, connectDelays true (List.replicate n false ++ true :: rest) =
      (List.replicate n 1000, .resolvedAfter n)) ∧
    (∀ n, connectDelays true (List.replicate n false) =
      (List.replicate n 1000, .pending)) := by
  refine ⟨fun rest => rfl, fun n rest => ?_, fun n => ?_⟩
  · induction n with
    | zero => simp [connectDelays]
    | succ n ih => simp [List.replicate_succ, connectDelays, ih]
  · induction n with
    | zero => simp [connectDelays]
    | succ n ih => simp [List.replicate_succ, connectDelays, ih]

/-- C2 (code bug): `_entityChanged` begins with
`if (cacheOpts.eventType)`, so when the cache channel is disabled
(`mixinOpts.cache` absent or `enabled` false makes the module-level
`cacheOpts` null) every write operation rejects with a `TypeError`
before the entity-lifecycle channel runs — here shown on
`clearEntities` — even though the lifecycle channel on its own would
emit the event, and even though the cache-enabled configurations fan
out both channels fine. -/
theorem c2_entityChanged_crashes_with_cache_disabled :
    clearEntities (cacheOptsOf (some { enabled := false, eventType := some "broadcast" }))
      (some "emit") "posts" = .error .nullCacheOpts ∧
    clearEntities (cacheOptsOf none) (some "emit") "posts" = .error .nullCacheOpts ∧
    entityChangedM (cacheOptsOf none) (some "emit") "posts" "update" =
      .error .nullCacheOpts ∧
    entityChangedLifecycle (some "emit") "posts" "update" =
      [⟨"posts.updated", "emit", "update"⟩] ∧
    entityChangedM (cacheOptsOf (some { enabled := true, eventType := some "broadcast" }))
      (some "emit") "posts" "update" =
      .ok [⟨"cache.clean.posts", "broadcast", "update"⟩,
           ⟨"posts.updated", "emit", "update"⟩] := by
  refine ⟨rfl, rfl, rfl, ?_, ?_⟩ <;> rfl

/-- The field schema for the C4 counterexample run. -/
def fieldsC4 : List FieldDesc :=
  [⟨"author", "author_id", false⟩, ⟨"votes", "vote_count", false⟩]

/-- C4 (code bug): `_queryFieldNameConversion` tests
`_.isPlainObject(res[columnName])` on the accumulator being built —
which is undefined for a not-yet-written column — instead of
`query[fieldName]`, so a nested plain-object value is copied verbatim
with its inner keys untranslated even when `recursive` is true: the
inner `votes` key below should become `vote_count` per the spec but
stays `votes`.  The sort-specification half of the claim does hold
(second and third conjuncts). -/
theorem c4_nested_query_keys_not_translated :
    queryFieldNameConversionTop fieldsC4 [("author", .obj [("votes", .num 5)])] true =
      [("author_id", .obj [("votes", .num 5)])] ∧
    sortFieldNameConversion fieldsC4 ["-votes", "author"] = ["-vote_count", "author_id"] ∧
    sortFieldNameConversion fieldsC4 ["unknown"] = ["unknown"] := by
  refine ⟨?_, rfl, rfl⟩
  simp [queryFieldNameConversionTop, queryFieldNameConversion,
    getColumnNameFromFieldName, fieldsC4, assocGet, assocSet, jsEntries,
    isPlainObject]

/-- C7: `_applyScopes` on the claim's three cases — an explicit
`scope: false` with the bypass authorized applies no scopes and leaves
the query untouched; with the bypass denied it degrades to exactly the
no-scope-parameter behaviour; and the no-scope-parameter behaviour is
the same as requesting precisely the configured default scope set. -/
theorem c7_scope_false_deny_by_default (st : Settings) (auth : AuthCheck)
    (q : Option Assoc) :
    (auth none = true → applyScopes st auth .disabled q = q) ∧
    (auth none = false →
      applyScopes st auth .disabled q = applyScopes st auth .unset q) ∧
    applyScopes st auth .unset q = applyScopes st auth (.names st.defaultScopes) q := by
  refine ⟨fun h => ?_, fun h => ?_, rfl⟩
  · simp [applyScopes, h]
  · simp [applyScopes, h]

/-- Settings for the C7 witness: the spec's scenario of a single
default scope restricting to active entities. -/
def stC7 : Settings :=
  { fields := [], primaryField := ⟨"id", "id", false⟩,
    defaultScopes := ["onlyActive"],
    scopes := [("onlyActive", .staticQ [("active", .bool true)])] }

/-- C7 witness: with the bypass authorized, `scope: false` resolves the
empty query unchanged; with it denied, the result coincides with the
default-scope path; and the default path on an empty query yields the
spec's `active: true` filter. -/
theorem c7_scope_false_deny_by_default_witness :
    applyScopes stC7 (fun _ => true) .disabled (some []) = some [] ∧
    applyScopes stC7 Option.isSome .disabled (some []) =
      applyScopes stC7 Option.isSome .unset (some []) ∧
    applyScopes stC7 Option.isSome .unset (some []) =
      some [("active", .bool true)] := by
  refine ⟨(c7_scope_false_deny_by_default stC7 (fun _ => true) (some [])).1 rfl,
    (c7_scope_false_deny_by_default stC7 Option.isSome (some [])).2.1 rfl, ?_⟩
  simp [applyScopes, filterScopeNamesByPermission, stC7, Settings.scopeOf,
    defaultsDeep, assocGet, assocSet]

/-- When the adapter's read returns no matches, `resolveEntities`
fails or returns the shape-appropriate empty value (shared between the
claims about the empty-resolve contract). -/
theorem resolveEntities_of_find_empty (S : SvcCtx) (params : Assoc)
    (opts : ResolveOpts) (id0 : JsVal)
    (hid : getIDFromParams S params = some id0)
    (hfind : S.find (resolveQuery S params
      ((idList id0).map (sanitizeID S opts.secureID)) (isMulti id0)) = []) :
    resolveEntities S params opts =
      if opts.throwIfNotExist then .error .entityNotFound
      else .ok (if mappingFlag params then .mapping []
                else if isMulti id0 then .list [] else .single none) := by
  unfold resolveEntities
  rw [hid]
  simp [hfind]

/-- C8: a resolve whose adapter lookup finds nothing fails with
`EntityNotFound` in strict (`throwIfNotExist`) mode — `resolveEntities`
holds only the adapter's read capability, so no mutation can have
happened — and otherwise returns an empty mapping when mapping was
requested, an empty list for a list of identifiers, and null (`none`)
for a single identifier. -/
theorem c8_resolve_empty_shapes (S : SvcCtx) (params : Assoc)
    (opts : ResolveOpts) (id0 : JsVal)
    (hid : getIDFromParams S params = some id0)
    (hfind : S.find (resolveQuery S params
      ((idList id0).map (sanitizeID S opts.secureID)) (isMulti id0)) = []) :
    resolveEntities S params opts =
      if opts.throwIfNotExist then .error .entityNotFound
      else .ok (if mappingFlag params then .mapping []
                else if isMulti id0 then .list [] else .single none) :=
  resolveEntities_of_find_empty S params opts id0 hid hfind

/-- A service whose adapter read never matches, for the C8 witness. -/
def SC8 : SvcCtx :=
  { settings := { fields := [], primaryField := ⟨"id", "id", false⟩ } }

/-- C8 witness: strict mode raises `EntityNotFound`; otherwise a single
id yields null, an id list yields an empty list, and a mapping request
yields an empty mapping. -/
theorem c8_resolve_empty_shapes_witness :
    resolveEntities SC8 [("id", .num 1)] ⟨true, true, none⟩ = .error .entityNotFound ∧
    resolveEntities SC8 [("id", .num 1)] ⟨true, false, none⟩ = .ok (.single none) ∧
    resolveEntities SC8 [("id", .arr [.num 1, .num 2])] ⟨true, false, none⟩ =
      .ok (.list []) ∧
    resolveEntities SC8 [("id", .arr [.num 1]), ("mapping", .bool true)]
      ⟨true, false, none⟩ = .ok (.mapping []) :=
  ⟨c8_resolve_empty_shapes SC8 [("id", .num 1)] ⟨true, true, none⟩ (.num 1) rfl rfl,
   c8_resolve_empty_shapes SC8 [("id", .num 1)] ⟨true, false, none⟩ (.num 1) rfl rfl,
   c8_resolve_empty_shapes SC8 [("id", .arr [.num 1, .num 2])] ⟨true, false, none⟩
     (.arr [.num 1, .num 2]) rfl rfl,
   c8_resolve_empty_shapes SC8 [("id", .arr [.num 1]), ("mapping", .bool true)]
     ⟨true, false, none⟩ (.arr [.num 1]) rfl rfl⟩

/-- C3: an update whose patch body is empty after stripping the
identifier fields performs no adapter write, emits no update
notification, and returns the already-resolved old entity, transformed
unless transformation is disabled. -/
theorem c3_update_empty_patch (S : SvcCtx) (validate : Assoc → Assoc)
    (params : Assoc) (opts : OpOpts) (id0 : JsVal) (oldRes : ResolveResult)
    (hid : getIDFromParams S params = some id0)
    (hres : resolveEntities S params { transform := false, throwIfNotExist := true } =
      .ok oldRes)
    (hempty : assocErase (assocErase (if opts.raw then params else validate params)
        S.settings.primaryField.columnName) S.settings.primaryField.name = []) :
    updateEntity S validate params opts =
      ⟨.ok (if opts.transform then S.tf oldRes.toJs else oldRes.toJs), [], []⟩ := by
  unfold updateEntity
  rw [hid, hres]
  simp [hempty]

/-- A service resolving one stored entity, for the C3 witness. -/
def SC3 : SvcCtx :=
  { settings := { fields := [], primaryField := ⟨"id", "id", false⟩ },
    find := fun _ => [[("id", .num 7), ("x", .num 1)]] }

/-- C3 witness: updating with a body holding only the identifier field
returns the resolved entity with no write and no event. -/
theorem c3_update_empty_patch_witness :
    updateEntity SC3 id [("id", .num 7)] {} =
      ⟨.ok (.obj [("id", .num 7), ("x", .num 1)]), [], []⟩ :=
  c3_update_empty_patch SC3 id [("id", .num 7)] {} (.num 7)
    (.single (some (.obj [("id", .num 7), ("x", .num 1)]))) rfl rfl rfl

/-- C10 (implicit): the strict existence check at the head of update,
replace and remove goes through `resolveEntities`, whose lookup query
is scope-resolved — an absent `scope` parameter takes the default-scope
branch — so an entity the scoped query excludes surfaces as
`EntityNotFound` and none of the three flows reaches its adapter
mutation. -/
theorem c10_write_flows_respect_default_scopes (S : SvcCtx)
    (validate : Assoc → Assoc) (params : Assoc)
    (optsU optsR optsD : OpOpts) (id0 : JsVal)
    (hid : getIDFromParams S params = some id0)
    (hfind : S.find (resolveQuery S params
      ((idList id0).map (sanitizeID S none)) (isMulti id0)) = []) :
    updateEntity S validate params optsU = ⟨.error .entityNotFound, [], []⟩ ∧
    replaceEntity S validate params optsR = ⟨.error .entityNotFound, [], []⟩ ∧
    removeEntity S validate params optsD = ⟨.error .entityNotFound, [], []⟩ ∧
    (assocGet params "scope" = none → scopeArgOfParams params = .unset) := by
  have hres : resolveEntities S params { transform := false, throwIfNotExist := true } =
      .error .entityNotFound := by
    simpa using
      resolveEntities_of_find_empty S params
        { transform := false, throwIfNotExist := true } id0 hid hfind
  refine ⟨?_, ?_, ?_, fun h => ?_⟩
  · unfold updateEntity; rw [hid, hres]
  · unfold replaceEntity; rw [hid, hres]
  · unfold removeEntity; rw [hid, hres]
  · simp [scopeArgOfParams, h]

/-- Adapter read for the C10 witness: a match comes back only when the
query does not carry the default scope's `active` filter. -/
def findC10 (q : Assoc) : List Assoc :=
  match assocGet q "active" with
  | some (.bool true) => []
  | _ => [[("id", .num 1)]]

/-- Settings with an `active: true` default scope, for the C10 witness. -/
def stC10 : Settings :=
  { fields := [], primaryField := ⟨"id", "id", false⟩,
    defaultScopes := ["act"],
    scopes := [("act", .staticQ [("active", .bool true)])] }

/-- A service whose default scope excludes the stored entity, for the
C10 witness. -/
def SC10 : SvcCtx :=
  { settings := stC10, find := findC10 }

/-- C10 witness: the entity is visible to an unscoped query, yet
update, replace and remove all fail with `EntityNotFound` because the
default scope is folded into their existence lookup. -/
theorem c10_write_flows_respect_default_scopes_witness :
    updateEntity SC10 id [("id", .num 1)] {} = ⟨.error .entityNotFound, [], []⟩ ∧
    replaceEntity SC10 id [("id", .num 1)] {} = ⟨.error .entityNotFound, [], []⟩ ∧
    removeEntity SC10 id [("id", .num 1)] {} = ⟨.error .entityNotFound, [], []⟩ ∧
    SC10.find [("id", .num 1)] = [[("id", .num 1)]] := by
  have h := c10_write_flows_respect_default_scopes SC10 id [("id", .num 1)]
    {} {} {} (.num 1) rfl (by
      simp [SC10, stC10, findC10, resolveQuery, applyScopes, scopeArgOfParams,
        filterScopeNamesByPermission, Settings.scopeOf, defaultsDeep,
        queryFieldNameConversionTop, queryFieldNameConversion,
        getColumnNameFromFieldName, assocGet, assocSet, jsEntries,
        isPlainObject, sanitizeID, idList, isMulti])
  exact ⟨h.1, h.2.1, h.2.2.1, rfl⟩

/-- C5: a maintenance pass on a pool whose tenant hashes are distinct,
with a configured maximum `m ≥ 1`, leaves at most `m` entries; the
retained and evicted entries together are exactly the original pool; a
pool within its limit is untouched; an oversized pool evicts exactly
`size - m` entries; and every evicted entry was touched no later than
every retained one (so the retained entries are the most recently
touched ones). -/
theorem c5_maintenance_evicts_oldest (m : Int) (entries : List PoolEntry)
    (hm : 1 ≤ m) (hhash : (entries.map PoolEntry.hash).Nodup) :
    ((maintenanceAdapters (some m) entries).1.length : Int) ≤ m ∧
    ((maintenanceAdapters (some m) entries).1 ++
      (maintenanceAdapters (some m) entries).2).Perm entries ∧
    ((entries.length : Int) ≤ m → maintenanceAdapters (some m) entries = (entries, [])) ∧
    (m < (entries.length : Int) →
      (((maintenanceAdapters (some m) entries).2.length : Int) =
        (entries.length : Int) - m)) ∧
    (∀ e ∈ (maintenanceAdapters (some m) entries).2,
      ∀ r ∈ (maintenanceAdapters (some m) entries).1, e.touched ≤ r.touched) := by
  have hm' : ¬ (m < 1) := not_lt.mpr hm
  by_cases hpos : 0 < (entries.length : Int) - m
  case neg =>
    have heq : maintenanceAdapters (some m) entries = (entries, []) := by
      simp [maintenanceAdapters, hm', hpos]
    rw [heq]
    refine ⟨by simpa using not_lt.mp (by simpa using hpos), by simp, fun _ => rfl,
      fun hlt => absurd (by omega) hpos, by simp⟩
  case pos =>
    set s : Nat := ((entries.length : Int) - m).toNat with hsdef
    set sorted := List.insertionSort touchedLE entries with hsorteddef
    have heq : maintenanceAdapters (some m) entries =
        (entries.filter (fun e => ! (sorted.take s).any (fun c => c.hash == e.hash)),
         sorted.take s) := by
      simp [maintenanceAdapters, hm', hpos]
    have hperm : sorted.Perm entries := List.perm_insertionSort _ _
    have hsorted : List.Sorted touchedLE sorted := List.sorted_insertionSort _ _
    have hnodE : entries.Nodup := List.Nodup.of_map _ hhash
    have hnodS : sorted.Nodup := hperm.nodup_iff.mpr hnodE
    have hmapS : (sorted.map PoolEntry.hash).Nodup := ((hperm.map _).nodup_iff).mpr hhash
    have hsplit : sorted.take s ++ sorted.drop s = sorted := List.take_append_drop _ _
    have hslen : s ≤ entries.length := by omega
    have hsortlen : sorted.length = entries.length := hperm.length_eq
    -- a retained entry lies in the dropped (most recently touched) part
    have hretMem : ∀ e, e ∈ (maintenanceAdapters (some m) entries).1 ↔
        (e ∈ entries ∧ ∀ c ∈ sorted.take s, ¬ c.hash = e.hash) := by
      intro e
      rw [heq]
      simp [List.mem_filter]
    have hkeepOfRet : ∀ e ∈ (maintenanceAdapters (some m) entries).1, e ∈ sorted.drop s := by
      intro e he
      obtain ⟨heE, hnc⟩ := (hretMem e).mp he
      have : e ∈ sorted := hperm.mem_iff.mpr heE
      rcases (List.mem_append.mp (by rw [hsplit]; exact this)) with h | h
      · exact absurd rfl (hnc e h)
      · exact h
    have hretOfKeep : ∀ d ∈ sorted.drop s, d ∈ (maintenanceAdapters (some m) entries).1 := by
      intro d hd
      have hdS : d ∈ sorted := by rw [← hsplit]; exact List.mem_append.mpr (Or.inr hd)
      refine (hretMem d).mpr ⟨hperm.mem_iff.mp hdS, fun c hc hch => ?_⟩
      have hcS : c ∈ sorted := by rw [← hsplit]; exact List.mem_append.mpr (Or.inl hc)
      have hcd : c = d := List.inj_on_of_nodup_map hmapS hcS hdS hch
      subst hcd
      have hdisj : List.Disjoint (sorted.take s) (sorted.drop s) :=
        List.disjoint_of_nodup_append (by rw [hsplit]; exact hnodS)
      exact hdisj hc hd
    have hnodRet : (maintenanceAdapters (some m) entries).1.Nodup := by
      rw [heq]; exact hnodE.filter _
    have hnodKeep : (sorted.drop s).Nodup :=
      (List.nodup_append.mp (by rw [hsplit]; exact hnodS)).2.1
    have hpermRK : (maintenanceAdapters (some m) entries).1.Perm (sorted.drop s) :=
      (List.perm_ext_iff_of_nodup hnodRet hnodKeep).mpr
        (fun a => ⟨fun h => hkeepOfRet a h, fun h => hretOfKeep a h⟩)
    have hretlen : (maintenanceAdapters (some m) entries).1.length = entries.length - s := by
      rw [hpermRK.length_eq, List.length_drop, hsortlen]
    have hevlen : (maintenanceAdapters (some m) entries).2.length = s := by
      rw [heq]
      simpa [List.length_take, hsortlen] using hslen
    refine ⟨?_, ?_, fun hle => absurd (by omega) (not_lt.mpr hle), fun _ => ?_, ?_⟩
    · rw [hretlen]; omega
    · refine List.Perm.trans (hpermRK.append_right _) ?_
      rw [heq]
      exact List.Perm.trans List.perm_append_comm (by rw [hsplit]; exact hperm)
    · rw [hevlen]; omega
    · intro e he r hr
      have hrk : r ∈ sorted.drop s := hkeepOfRet r hr
      have hec : e ∈ sorted.take s := by rw [heq] at he; exact he
      have hpw : List.Pairwise touchedLE (sorted.take s ++ sorted.drop s) := by
        rw [hsplit]; exact hsorted
      exact (List.pairwise_append.mp hpw).2.2 e hec r hrk

/-- The spec's scenario: acquire A, B, C in that touch order with a
pool maximum of 2. -/
def poolC5 : List PoolEntry := [⟨"A", 0, 1⟩, ⟨"B", 1, 2⟩, ⟨"C", 2, 3⟩]

/-- C5 witness: with maximum 2 the pass keeps the bound and evicts
exactly the oldest entry A, retaining B and C. -/
theorem c5_maintenance_evicts_oldest_witness :
    ((maintenanceAdapters (some 2) poolC5).1.length : Int) ≤ 2 ∧
    maintenanceAdapters (some 2) poolC5 =
      ([⟨"B", 1, 2⟩, ⟨"C", 2, 3⟩], [⟨"A", 0, 1⟩]) :=
  ⟨(c5_maintenance_evicts_oldest 2 poolC5 (by decide) (by decide)).1, by decide⟩

/-! Association-list facts supporting the mapping reduce of
`resolveEntities`. -/

theorem assocGet_cons (k' : String) (v' : JsVal) (rest : Assoc) (k : String) :
    assocGet ((k', v') :: rest) k = if k' = k then some v' else assocGet rest k := by
  by_cases h : k' = k
  · have hb : (k' == k) = true := beq_iff_eq.mpr h
    simp [assocGet, List.find?, hb, h]
  · have hb : (k' == k) = false := beq_eq_false_iff_ne.mpr h
    simp [assocGet, List.find?, hb, h]

theorem assocGet_append_of_none (m m' : Assoc) (k : String)
    (h : assocGet m k = none) : assocGet (m ++ m') k = assocGet m' k := by
  induction m with
  | nil => rfl
  | cons hd tl ih =>
    obtain ⟨k', v'⟩ := hd
    rw [assocGet_cons] at h
    by_cases hk : k' = k
    · simp [hk] at h
    · rw [List.cons_append, assocGet_cons, if_neg hk]
      exact ih (by simpa [hk] using h)

theorem assocSet_of_get_none (m : Assoc) (k : String) (v : JsVal)
    (h : assocGet m k = none) : assocSet m k v = m ++ [(k, v)] := by
  induction m with
  | nil => rfl
  | cons hd tl ih =>
    obtain ⟨k', v'⟩ := hd
    rw [assocGet_cons] at h
    by_cases hk : k' = k
    · simp [hk] at h
    · simp [assocSet, hk, ih (by simpa [hk] using h)]

theorem foldl_assocSet_fresh (L : List (String × JsVal)) :
    ∀ acc : Assoc, (∀ p ∈ L, assocGet acc p.1 = none) →
      (L.map Prod.fst).Nodup →
      L.foldl (fun m p => assocSet m p.1 p.2) acc = acc ++ L := by
  induction L with
  | nil => intro acc _ _; simp
  | cons hd tl ih =>
    intro acc hfresh hnod
    rw [List.foldl_cons,
      assocSet_of_get_none acc hd.1 hd.2 (hfresh hd (List.mem_cons_self _ _))]
    have hnodm : (hd.1 :: tl.map Prod.fst).Nodup := by simpa using hnod
    have hnod' := List.nodup_cons.mp hnodm
    rw [ih (acc ++ [(hd.1, hd.2)]) ?_ hnod'.2]
    · simp
    · intro p hp
      rw [assocGet_append_of_none _ _ _ (hfresh p (List.mem_cons_of_mem _ hp))]
      have hne : hd.1 ≠ p.1 := by
        intro he
        exact hnod'.1 (he ▸ List.mem_map_of_mem Prod.fst hp)
      rw [assocGet_cons]
      simp [hne, assocGet]

theorem assocGet_of_mem_nodup (L : List (String × JsVal)) (k : String) (v : JsVal)
    (hmem : (k, v) ∈ L) (hnod : (L.map Prod.fst).Nodup) :
    assocGet L k = some v := by
  induction L with
  | nil => cases hmem
  | cons hd tl ih =>
    have hnodm : (hd.1 :: tl.map Prod.fst).Nodup := by simpa using hnod
    have hnod' := List.nodup_cons.mp hnodm
    rcases List.mem_cons.mp hmem with heq | hmem'
    · rw [← heq, assocGet_cons, if_pos rfl]
    · have hne : hd.1 ≠ k := by
        intro he
        exact hnod'.1 (he ▸ List.mem_map_of_mem Prod.fst hmem')
      rw [assocGet_cons, if_neg hne]
      exact ih hmem' hnod'.2

theorem assocGet_isSome_iff (L : List (String × JsVal)) (k : String) :
    (assocGet L k).isSome ↔ k ∈ L.map Prod.fst := by
  induction L with
  | nil => simp [assocGet]
  | cons hd tl ih =>
    rw [List.map_cons, assocGet_cons]
    by_cases h : hd.1 = k
    · simp [h]
    · have h' : ¬ k = hd.1 := fun he => h he.symm
      simp [List.mem_cons, ih, h, h']

theorem zip_self_map (f : Assoc → JsVal) (R : List Assoc) :
    List.zip R (R.map f) = R.map (fun e => (e, f e)) := by
  induction R with
  | nil => rfl
  | cons a t ih => simp [ih]

/-- With pairwise-distinct mapping keys, the reduce of `resolveEntities`
produces exactly one binding per found entity, in order. -/
theorem buildMapping_eq (S : SvcCtx) (R : List Assoc) (f : Assoc → JsVal)
    (hnod : (R.map (mapKey S)).Nodup) :
    buildMapping S R (R.map f) = R.map (fun e => (mapKey S e, f e)) := by
  unfold buildMapping
  rw [zip_self_map, List.foldl_map]
  have h1 := foldl_assocSet_fresh (R.map fun e => (mapKey S e, f e)) []
    (fun p _ => rfl) (by simpa [List.map_map, Function.comp] using hnod)
  rw [List.foldl_map] at h1
  simpa using h1

/-- C9: resolve over a list of identifiers with `mapping=true` — when
the adapter returns entities whose stored id column matches a
(decoded) requested identifier, identifier re-encoding round-trips on
the requested ids, and the resulting keys are distinct, the result is
the mapping whose bindings are exactly one per found entity: each key
is the untransformed stored identifier re-encoded per `mapKey` (and so
a requested identifier), each value the transformed entity, and a key
has a binding exactly when it is a requested identifier whose entity
was found. -/
theorem c9_resolve_mapping_keys (S : SvcCtx) (params : Assoc)
    (opts : ResolveOpts) (reqIds : List JsVal) (R : List Assoc)
    (hid : getIDFromParams S params = some (.arr reqIds))
    (hmap : mappingFlag params = true)
    (htr : opts.transform = true)
    (hfind : S.find (resolveQuery S params
      (reqIds.map (sanitizeID S opts.secureID)) true) = R)
    (hne : R ≠ [])
    (hmatch : ∀ e ∈ R, ∃ i ∈ reqIds,
      assocGet e S.settings.primaryField.columnName =
        some (sanitizeID S opts.secureID i))
    (henc : ∀ i ∈ reqIds,
      jsToPropKey (if S.settings.primaryField.secure then
          S.encodeID (sanitizeID S opts.secureID i)
        else sanitizeID S opts.secureID i) = jsToPropKey i)
    (hnod : (R.map (mapKey S)).Nodup) :
    resolveEntities S params opts =
      .ok (.mapping (buildMapping S R (R.map fun e => S.tf (.obj e)))) ∧
    (∀ e ∈ R, assocGet (buildMapping S R (R.map fun e => S.tf (.obj e)))
      (mapKey S e) = some (S.tf (.obj e))) ∧
    (∀ k, (assocGet (buildMapping S R (R.map fun e => S.tf (.obj e))) k).isSome ↔
      ∃ i ∈ reqIds, k = jsToPropKey i ∧
        ∃ e ∈ R, assocGet e S.settings.primaryField.columnName =
          some (sanitizeID S opts.secureID i)) := by
  have hM := buildMapping_eq S R (fun e => S.tf (.obj e)) hnod
  have hkey : ∀ e ∈ R, ∀ i ∈ reqIds,
      assocGet e S.settings.primaryField.columnName =
        some (sanitizeID S opts.secureID i) →
      mapKey S e = jsToPropKey i := by
    intro e _ i hi hass
    rw [mapKey, hass]
    exact henc i hi
  refine ⟨?_, ?_, ?_⟩
  · unfold resolveEntities
    rw [hid]
    simp [hfind, hmap, htr, hne, isMulti, idList]
  · intro e he
    rw [hM]
    refine assocGet_of_mem_nodup _ _ _
      (List.mem_map_of_mem (fun e => (mapKey S e, S.tf (.obj e))) he) ?_
    simpa [List.map_map, Function.comp] using hnod
  · intro k
    rw [hM, assocGet_isSome_iff]
    constructor
    · intro hk
      rw [List.map_map] at hk
      obtain ⟨e, he, hke⟩ := List.mem_map.mp hk
      obtain ⟨i, hi, hass⟩ := hmatch e he
      have : mapKey S e = jsToPropKey i := hkey e he i hi hass
      exact ⟨i, hi, by
        rw [← hke]
        simpa [Function.comp] using this, e, he, hass⟩
    · rintro ⟨i, hi, hk, e, he, hass⟩
      rw [List.map_map]
      refine List.mem_map.mpr ⟨e, he, ?_⟩
      have : mapKey S e = jsToPropKey i := hkey e he i hi hass
      simpa [Function.comp, this] using hk.symm

/-- The two entities the C9 witness adapter returns (ids 1 and 2; the
requested id 3 has no entity). -/
def RC9 : List Assoc :=
  [[("id", .num 1), ("v", .str "a")], [("id", .num 2), ("v", .str "b")]]

/-- Service for the C9 witness: non-secure primary field, identity
transform, adapter returning `RC9`. -/
def SC9 : SvcCtx :=
  { settings := { fields := [], primaryField := ⟨"id", "id", false⟩ },
    find := fun _ => RC9 }

/-- Params for the C9 witness: resolve ids 1, 2, 3 with mapping. -/
def paramsC9 : Assoc :=
  [("id", .arr [.num 1, .num 2, .num 3]), ("mapping", .bool true)]

/-- C9 witness: the resolve yields the mapping built from the found
entities; its keys are the found ids "1" and "2" (their property-key
coercions) with the transformed entities as values. -/
theorem c9_resolve_mapping_keys_witness :
    resolveEntities SC9 paramsC9 {} =
      .ok (.mapping (buildMapping SC9 RC9 (RC9.map fun e => SC9.tf (.obj e)))) ∧
    buildMapping SC9 RC9 (RC9.map fun e => SC9.tf (.obj e)) =
      [("1", .obj [("id", .num 1), ("v", .str "a")]),
       ("2", .obj [("id", .num 2), ("v", .str "b")])] ∧
    assocGet (buildMapping SC9 RC9 (RC9.map fun e => SC9.tf (.obj e)))
      (mapKey SC9 [("id", .num 1), ("v", .str "a")]) =
      some (.obj [("id", .num 1), ("v", .str "a")]) := by
  have h := c9_resolve_mapping_keys SC9 paramsC9 {} [.num 1, .num 2, .num 3] RC9
    rfl rfl rfl rfl (by simp [RC9])
    (by
      intro e he
      simp only [RC9, List.mem_cons, List.not_mem_nil, or_false] at he
      rcases he with rfl | rfl
      · exact ⟨.num 1, by simp, rfl⟩
      · exact ⟨.num 2, by simp, rfl⟩)
    (fun i _ => rfl)
    (by
      have : RC9.map (mapKey SC9) = ["1", "2"] := rfl
      rw [this]
      decide)
  exact ⟨h.1, rfl, h.2.1 [("id", .num 1), ("v", .str "a")] (by simp [RC9])⟩

/-! Facts about the concurrent `getAdapter` model. -/

theorem plookup_cons (k : String) (n : Nat) (pool : List (String × Nat))
    (k' : String) :
    plookup ((k, n) :: pool) k' = if k = k' then some n else plookup pool k' := by
  by_cases h : k = k'
  · have hb : (k == k') = true := beq_iff_eq.mpr h
    simp [plookup, List.find?, hb, h]
  · have hb : (k == k') = false := beq_eq_false_iff_ne.mpr h
    simp [plookup, List.find?, hb, h]

/-- The predicate counted by `connectingCount`. -/
def isConnectingFor (k : String) : AcqTask → Bool
  | .connecting k' _ => k' == k
  | _ => false

theorem connectingCount_eq (c : PoolCfg) (k : String) :
    connectingCount c k = c.tasks.countP (isConnectingFor k) := by
  unfold connectingCount isConnectingFor
  rfl

/-- Membership after replacing one task: the member is the new task or
was present before the replacement. -/
theorem mem_of_replace {x t' : AcqTask} {pre post : List AcqTask} (t : AcqTask)
    (hx : x ∈ pre ++ t' :: post) : x = t' ∨ x ∈ pre ++ t :: post := by
  simp only [List.mem_append, List.mem_cons] at hx ⊢
  tauto

/-- Replacing one task by another with the same predicate value leaves
`countP` unchanged. -/
theorem countP_replace (p : AcqTask → Bool) (pre post : List AcqTask)
    (t t' : AcqTask) (h : p t' = p t) :
    (pre ++ t' :: post).countP p = (pre ++ t :: post).countP p := by
  simp [List.countP_append, List.countP_cons, h]

/-- One step of the model preserves the pool invariant. -/
theorem PoolInv_step (c₁ c₂ : PoolCfg) (hinv : PoolInv c₁) (hstep : AcqStep c₁ c₂) :
    PoolInv c₂ := by
  obtain ⟨h1, h2, h3⟩ := hinv
  cases hstep with
  | hit pre post k a htasks hpool =>
      refine ⟨?_, ?_, ?_⟩
      · intro k' a' hmem
        dsimp only at hmem ⊢
        rcases hmem with hm | hm
        · rcases mem_of_replace (AcqTask.start k) hm with he | hold
          · cases he
          · exact h1 k' a' (Or.inl (by rw [htasks]; exact hold))
        · rcases mem_of_replace (AcqTask.start k) hm with he | hold
          · cases he; exact hpool
          · exact h1 k' a' (Or.inr (by rw [htasks]; exact hold))
      · intro k' hnone
        dsimp only at hnone ⊢
        obtain ⟨hc, ht⟩ := h2 k' hnone
        refine ⟨hc, fun a' => ⟨fun hm => ?_, fun hm => ?_⟩⟩
        · rcases mem_of_replace (AcqTask.start k) hm with he | hold
          · cases he
          · exact (ht a').1 (by rw [htasks]; exact hold)
        · rcases mem_of_replace (AcqTask.start k) hm with he | hold
          · cases he; cases hpool.symm.trans hnone
          · exact (ht a').2 (by rw [htasks]; exact hold)
      · intro k'
        have h3' := h3 k'
        rw [connectingCount_eq, htasks] at h3'
        rw [connectingCount_eq]
        dsimp only
        rw [countP_replace (isConnectingFor k') pre post (AcqTask.start k)
          (AcqTask.finished k a) rfl]
        exact h3'
  | miss pre post k htasks hpool =>
      refine ⟨?_, ?_, ?_⟩
      · intro k' a' hmem
        dsimp only at hmem ⊢
        rw [plookup_cons]
        rcases hmem with hm | hm
        · rcases mem_of_replace (AcqTask.start k) hm with he | hold
          · cases he; simp
          · have hx := h1 k' a' (Or.inl (by rw [htasks]; exact hold))
            by_cases hk : k = k'
            · subst hk; cases hpool.symm.trans hx
            · rw [if_neg hk]; exact hx
        · rcases mem_of_replace (AcqTask.start k) hm with he | hold
          · cases he
          · have hx := h1 k' a' (Or.inr (by rw [htasks]; exact hold))
            by_cases hk : k = k'
            · subst hk; cases hpool.symm.trans hx
            · rw [if_neg hk]; exact hx
      · intro k' hnone
        dsimp only at hnone ⊢
        rw [plookup_cons] at hnone
        by_cases hk : k = k'
        · rw [if_pos hk] at hnone; cases hnone
        · rw [if_neg hk] at hnone
          obtain ⟨hc, ht⟩ := h2 k' hnone
          refine ⟨hc, fun a' => ⟨fun hm => ?_, fun hm => ?_⟩⟩
          · rcases mem_of_replace (AcqTask.start k) hm with he | hold
            · cases he; exact absurd rfl hk
            · exact (ht a').1 (by rw [htasks]; exact hold)
          · rcases mem_of_replace (AcqTask.start k) hm with he | hold
            · cases he
            · exact (ht a').2 (by rw [htasks]; exact hold)
      · intro k'
        dsimp only
        rw [connectingCount_eq]
        dsimp only
        by_cases hk : k = k'
        · subst hk
          have hz := h2 k hpool
          have hzero : ∀ L : List AcqTask, (∀ t ∈ L, t ∈ c₁.tasks) →
              L.countP (isConnectingFor k) = 0 := by
            intro L hsub
            rw [List.countP_eq_zero]
            intro t htm
            cases t with
            | start _ => simp [isConnectingFor]
            | finished _ _ => simp [isConnectingFor]
            | connecting k₂ a₂ =>
                simp only [isConnectingFor]
                intro hbeq
                have hk2 : k₂ = k := by simpa using hbeq
                subst hk2
                exact (hz.2 a₂).1 (hsub _ htm)
          have hpre : pre.countP (isConnectingFor k) = 0 :=
            hzero pre (fun t ht => by rw [htasks]; simp [ht])
          have hpost : post.countP (isConnectingFor k) = 0 :=
            hzero post (fun t ht => by rw [htasks]; simp [ht])
          rw [List.countP_append, List.countP_cons, hpre, hpost, hz.1]
          simp [isConnectingFor]
        · have hb : (k == k') = false := beq_eq_false_iff_ne.mpr hk
          rw [countP_replace (isConnectingFor k') pre post (AcqTask.start k)
            (AcqTask.connecting k c₁.nextId) (by simp [isConnectingFor, hb])]
          rw [← htasks]
          have h3' := h3 k'
          rw [connectingCount_eq] at h3'
          exact h3'
  | connect pre post k a htasks =>
      have hak : plookup c₁.pool k = some a :=
        h1 k a (Or.inl (by rw [htasks]; simp))
      refine ⟨?_, ?_, ?_⟩
      · intro k' a' hmem
        dsimp only at hmem ⊢
        rcases hmem with hm | hm
        · rcases mem_of_replace (AcqTask.connecting k a) hm with he | hold
          · cases he
          · exact h1 k' a' (Or.inl (by rw [htasks]; exact hold))
        · rcases mem_of_replace (AcqTask.connecting k a) hm with he | hold
          · cases he; exact hak
          · exact h1 k' a' (Or.inr (by rw [htasks]; exact hold))
      · intro k' hnone
        dsimp only at hnone ⊢
        obtain ⟨hc, ht⟩ := h2 k' hnone
        have hkk : ¬ k = k' := by
          intro he
          rw [he] at hak
          cases hnone.symm.trans hak
        have hb : (k == k') = false := beq_eq_false_iff_ne.mpr hkk
        refine ⟨?_, fun a' => ⟨fun hm => ?_, fun hm => ?_⟩⟩
        · rw [List.count_cons, hb]
          simp [hc]
        · rcases mem_of_replace (AcqTask.connecting k a) hm with he | hold
          · cases he
          · exact (ht a').1 (by rw [htasks]; exact hold)
        · rcases mem_of_replace (AcqTask.connecting k a) hm with he | hold
          · cases he; exact hkk rfl
          · exact (ht a').2 (by rw [htasks]; exact hold)
      · intro k'
        dsimp only
        rw [connectingCount_eq]
        dsimp only
        have h3' := h3 k'
        rw [connectingCount_eq, htasks] at h3'
        by_cases hk : k = k'
        · subst hk
          have e1 : (pre ++ AcqTask.finished k a :: post).countP (isConnectingFor k) =
              pre.countP (isConnectingFor k) + post.countP (isConnectingFor k) := by
            simp [List.countP_append, List.countP_cons, isConnectingFor]
          have e2 : (pre ++ AcqTask.connecting k a :: post).countP (isConnectingFor k) =
              pre.countP (isConnectingFor k) + post.countP (isConnectingFor k) + 1 := by
            simp [List.countP_append, List.countP_cons, isConnectingFor]
            omega
          have e3 : (k :: c₁.connects).count k = c₁.connects.count k + 1 := by
            rw [List.count_cons]
            simp
          rw [e1, e3]
          rw [e2] at h3'
          omega
        · have hb : (k == k') = false := beq_eq_false_iff_ne.mpr hk
          have e1 := countP_replace (isConnectingFor k') pre post
            (AcqTask.connecting k a) (AcqTask.finished k a) (by simp [isConnectingFor, hb])
          have e3 : (k :: c₁.connects).count k' = c₁.connects.count k' := by
            rw [List.count_cons, hb]
            simp
          rw [e1, e3]
          exact h3'

/-- The invariant holds in an initial configuration. -/
theorem PoolInv_init (ks : List String) : PoolInv (initCfg ks) := by
  refine ⟨?_, ?_, ?_⟩
  · intro k a hmem
    rcases hmem with hm | hm <;>
      · obtain ⟨x, _, hx⟩ := List.mem_map.mp hm
        cases hx
  · intro k _
    refine ⟨rfl, fun a => ⟨fun hm => ?_, fun hm => ?_⟩⟩ <;>
      · obtain ⟨x, _, hx⟩ := List.mem_map.mp hm
        cases hx
  · intro k
    rw [connectingCount_eq]
    have hz : (initCfg ks).tasks.countP (isConnectingFor k) = 0 := by
      rw [List.countP_eq_zero]
      intro t htm
      obtain ⟨x, _, hx⟩ := List.mem_map.mp htm
      rw [← hx]
      simp [isConnectingFor]
    rw [hz]
    simp [initCfg]

/-- The invariant holds in every reachable configuration. -/
theorem PoolInv_reach (ks : List String) (c : PoolCfg)
    (h : AcqReach (initCfg ks) c) : PoolInv c := by
  induction h with
  | refl => exact PoolInv_init ks
  | tail c₂ c₃ _ hstep ih => exact PoolInv_step c₂ c₃ ih hstep

/-- A step that changes key `k'`'s pool binding or connect count is a
step of a task acquiring for `k'` — keys do not interfere. -/
theorem AcqStep_frame (c₁ c₂ : PoolCfg) (hstep : AcqStep c₁ c₂) (k' : String)
    (hch : plookup c₂.pool k' ≠ plookup c₁.pool k' ∨
      c₂.connects.count k' ≠ c₁.connects.count k') :
    ∃ pre post t t', c₁.tasks = pre ++ t :: post ∧ c₂.tasks = pre ++ t' :: post ∧
      t.key = k' := by
  cases hstep with
  | hit pre post k a htasks hpool =>
      rcases hch with h | h <;> exact absurd rfl h
  | miss pre post k htasks hpool =>
      rcases hch with h | h
      · dsimp only at h
        by_cases hk : k = k'
        · subst hk
          exact ⟨pre, post, .start k, .connecting k c₁.nextId, htasks, rfl, rfl⟩
        · rw [plookup_cons, if_neg hk] at h
          exact absurd rfl h
      · exact absurd rfl h
  | connect pre post k a htasks =>
      rcases hch with h | h
      · exact absurd rfl h
      · dsimp only at h
        by_cases hk : k = k'
        · subst hk
          exact ⟨pre, post, .connecting k a, .finished k a, htasks, rfl, rfl⟩
        · rw [List.count_cons, beq_eq_false_iff_ne.mpr hk] at h
          simp at h

/-- C1: in the event-loop interleaving model of `getAdapter`, every
reachable configuration shows at most one connect sequence per tenant
key and all callers finished for a key hold the same adapter handle
(the lookup and registration share one synchronous block, so the
check-then-create races only with itself atomically); and any step
that changes a key's pool binding or connect count is a step of a
caller for that very key, so acquisitions for distinct keys proceed
independently. -/
theorem c1_getAdapter_atomic_per_key :
    (∀ ks c, AcqReach (initCfg ks) c → ∀ k,
      c.connects.count k ≤ 1 ∧
      ∀ a₁ a₂, AcqTask.finished k a₁ ∈ c.tasks → AcqTask.finished k a₂ ∈ c.tasks →
        a₁ = a₂) ∧
    (∀ c₁ c₂, AcqStep c₁ c₂ → ∀ k',
      (plookup c₂.pool k' ≠ plookup c₁.pool k' ∨
        c₂.connects.count k' ≠ c₁.connects.count k') →
      ∃ pre post t t', c₁.tasks = pre ++ t :: post ∧ c₂.tasks = pre ++ t' :: post ∧
        t.key = k') := by
  constructor
  · intro ks c hreach k
    obtain ⟨h1, h2, h3⟩ := PoolInv_reach ks c hreach
    refine ⟨le_trans (Nat.le_add_left _ _) (h3 k), fun a₁ a₂ hm₁ hm₂ => ?_⟩
    have e₁ := h1 k a₁ (Or.inr hm₁)
    have e₂ := h1 k a₂ (Or.inr hm₂)
    exact Option.some.inj (e₁.symm.trans e₂)
  · exact fun c₁ c₂ hstep k' hch => AcqStep_frame c₁ c₂ hstep k' hch

/-- The four stations of a two-caller run for the same key: both
fresh; the first caller registered; the first caller connected and
done; the second caller hit the pooled entry and finished with the
same handle. -/
def cfgC1a : PoolCfg := ⟨[], 0, [], [.start "default", .start "default"]⟩

def cfgC1b : PoolCfg :=
  ⟨[("default", 0)], 1, [], [.connecting "default" 0, .start "default"]⟩

def cfgC1c : PoolCfg :=
  ⟨[("default", 0)], 1, ["default"], [.finished "default" 0, .start "default"]⟩

def cfgC1d : PoolCfg :=
  ⟨[("default", 0)], 1, ["default"], [.finished "default" 0, .finished "default" 0]⟩

/-- The concrete two-caller run is a valid interleaving. -/
theorem reachC1 : AcqReach (initCfg ["default", "default"]) cfgC1d :=
  AcqReach.tail _ _ _
    (AcqReach.tail _ _ _
      (AcqReach.tail _ _ _ (AcqReach.refl _)
        (AcqStep.miss cfgC1a [] [.start "default"] "default" rfl rfl))
      (AcqStep.connect cfgC1b [] [.start "default"] "default" 0 rfl))
    (AcqStep.hit cfgC1c [.finished "default" 0] [] "default" 0 rfl rfl)

/-- C1 witness: after the two-caller run exactly one connect happened
(count ≤ 1 applied at the final configuration), the two finished
callers agree on handle 0, and the registering step is attributed to a
"default" acquirer by the frame property. -/
theorem c1_getAdapter_atomic_per_key_witness :
    cfgC1d.connects.count "default" ≤ 1 ∧ (0 : Nat) = 0 ∧
    (∃ pre post t t', cfgC1a.tasks = pre ++ t :: post ∧
      cfgC1b.tasks = pre ++ t' :: post ∧ t.key = "default") :=
  ⟨(c1_getAdapter_atomic_per_key.1 ["default", "default"] cfgC1d reachC1 "default").1,
   (c1_getAdapter_atomic_per_key.1 ["default", "default"] cfgC1d reachC1 "default").2
     0 0 (by decide) (by decide),
   c1_getAdapter_atomic_per_key.2 cfgC1a cfgC1b
     (AcqStep.miss cfgC1a [] [.start "default"] "default" rfl rfl) "default"
     (Or.inl (by decide))⟩

end MoleculerDb
